import Mathlib

/-!
Verification of the `securi` bundling pipeline against its specification.

The Go sources are shallowly embedded:

* `src/routes/files/bundle_filegroup.go` — the `BundleFileGroup` handler is
  embedded as `Securi.bundleFileGroup` (with its continuation after the
  recipient-wrap step as `Securi.afterWrap`), over an explicit environment
  `Securi.Env` standing for the request context, the relational store, the
  local filesystem and the outcomes of the external calls (bcrypt, zip entry
  creation, `io.Copy`, age encryption, `time.Parse`, GORM save,
  shortlink creation).  The per-member zip loop (lines 122-149) is
  `Securi.processItems`; the S3 migration goroutine (lines 190-216) is
  `Securi.migrationWorker`.
* `src/unnamed/part_000` — `LazyScryptIdentity.Unwrap` is embedded as
  `Securi.lazyScryptUnwrap`, with the external `age` library calls
  (`NewScryptIdentity`, `ScryptIdentity.Unwrap`) abstracted as an oracle.

Machine behaviour that the claims reason about (which files exist, which
database rows are written, the order of effects) is made explicit: the
filesystem is an association list of paths to objects, the database is a
record of rows, and the handler additionally records an ordered trace of
effect events.
-/

set_option maxHeartbeats 1000000

namespace Securi

/-! ## Bytes and filesystem model -/

abbrev Bytes := List Nat

/-- A single entry of the password-protected zip container, as created by
`zipCompressor.Encrypt(name, password, zip.AES256Encryption)` followed by
`io.Copy`: the stored display name, the passcode it is encrypted under, the
encryption method tag and the bytes that were actually written. -/
structure ZipEntry where
  name : String
  password : String
  method : String
  data : Bytes
  deriving Repr, DecidableEq

/-- An object on the local filesystem: a plain uploaded file, a zip archive
with its entries, or an age-encrypted wrap of an inner object for a list of
recipient public keys. -/
inductive FsObj where
  | plain (content : Bytes)
  | zipArchive (entries : List ZipEntry)
  | ageWrapped (inner : FsObj) (recipients : List String)
  deriving Repr, DecidableEq

/-- The byte stream obtained by opening and reading an object (`os.Open` +
`io.Copy` reads whatever bytes the file holds). -/
def FsObj.bytes : FsObj → Bytes
  | .plain c => c
  | .zipArchive es => es.foldr (fun e acc => e.data ++ acc) []
  | .ageWrapped inner _ => inner.bytes

/-- The local filesystem: an association list from paths to objects. -/
abbrev FS := List (String × FsObj)

/-- `os.Open` / reading a path: first entry with that path, if any. -/
def lookupFS : FS → String → Option FsObj
  | [], _ => Option.none
  | e :: rest, p => if e.1 = p then Option.some e.2 else lookupFS rest p

/-- `os.Remove`: drop every entry stored under the path. -/
def removeFS : FS → String → FS
  | [], _ => []
  | e :: rest, p => if e.1 = p then removeFS rest p else e :: removeFS rest p

/-- `os.Create` / rewriting a file: the path now maps to the new object. -/
def writeFS (fs : FS) (p : String) (o : FsObj) : FS :=
  (p, o) :: removeFS fs p

/-! ## Data model (repository/pg/models) -/

/-- Row of the `FileGroup` table: id, owning user, bundling timestamp
(`NULL` until bundled), expiry, bcrypt hash of the archive passcode, the
artifact locator (`FileKey`: local path, later the S3 key) and the user ids
the group is shared with. -/
structure FileGroup where
  id : String
  userId : String
  bundledAt : Option Nat
  expiredAt : Option Nat
  archivePasscode : String
  fileKey : String
  sharedToUserIds : List String
  deriving Repr, DecidableEq

/-- Row of the `FileItem` table: owning group, on-disk storage name
(`Filename`) and display name (`Realname`). -/
structure FileItem where
  fileGroupId : String
  filename : String
  realname : String
  deriving Repr, DecidableEq

/-- Row of the `UserKey` table: user id and registered public key. -/
structure UserKey where
  userId : String
  public : String
  deriving Repr, DecidableEq

/-- The relational store visible to the handler. -/
structure DB where
  groups : List FileGroup
  items : List FileItem
  userKeys : List UserKey
  deriving Repr, DecidableEq

/-- Lines 66-78: `db.Where(id = ? AND "userId" = ? AND "bundledAt" IS
NULL).First(&fileGroup)` — the conditional fetch of an owned, not yet
bundled group. -/
def DB.fetchOwnedUnbundled (db : DB) (gid uid : String) : Option FileGroup :=
  db.groups.find? (fun g => g.id == gid && g.userId == uid && g.bundledAt.isNone)

/-- Lines 80-88: `db.Where("fileGroupId" = ?).Find(&fileItems)`. -/
def DB.findItems (db : DB) (gid : String) : List FileItem :=
  db.items.filter (fun it => it.fileGroupId == gid)

/-- `db.Save(&fileGroup)` on a fetched row: GORM issues an `UPDATE` keyed by
the primary key only, replacing the row whose id matches, with no further
condition. -/
def DB.saveGroup (db : DB) (g : FileGroup) : DB :=
  { db with groups := db.groups.map (fun x => if x.id = g.id then g else x) }

/-! ## The per-member zip loop (lines 120-149) -/

/-- `filepath.Join(uploadPath, item.Filename)`. -/
def itemPath (up : String) (it : FileItem) : String :=
  up ++ "/" ++ it.filename

/-- Effect events recorded by the handler, in program order. -/
inductive Event where
  | zipCreated (path : String)
  | sourceRemoved (path : String)
  | wrapped (src dst : String) (keys : List String)
  | prewrapRemoved (path : String)
  | persisted (g : FileGroup)
  | migrationLaunched (path : String)
  | minted (groupId : String) (pin : String)
  deriving Repr, DecidableEq

/-- The loop over `fileItems` (lines 122-149).  For each item: open the
source (skip silently if it fails), create its encrypted entry with
`zipCompressor.Encrypt(item.Realname, passcode, AES256)` (skip on error,
leaving no entry), then `io.Copy` the bytes (on error the already-created
entry remains, holding only the bytes copied so far, and the source is kept),
and on full success close and `os.Remove` the source.  `eok`/`cok` give the
success of the external `Encrypt`/`io.Copy` calls per source path, and
`plen` the number of bytes a failing copy had written.  Returns the entries
written to the archive, the filesystem after the loop, and the removal
events. -/
def processItems (pc : String) (eok cok : String → Bool) (plen : String → Nat)
    (up : String) : List FileItem → FS → List ZipEntry × FS × List Event
  | [], fs => ([], fs, [])
  | it :: rest, fs =>
    match lookupFS fs (itemPath up it), eok (itemPath up it), cok (itemPath up it) with
    | Option.none, _, _ =>
        processItems pc eok cok plen up rest fs
    | Option.some _, false, _ =>
        processItems pc eok cok plen up rest fs
    | Option.some obj, true, false =>
        let r := processItems pc eok cok plen up rest fs
        (ZipEntry.mk it.realname pc "AES256" (obj.bytes.take (plen (itemPath up it))) :: r.1,
         r.2.1, r.2.2)
    | Option.some obj, true, true =>
        let r := processItems pc eok cok plen up rest (removeFS fs (itemPath up it))
        (ZipEntry.mk it.realname pc "AES256" obj.bytes :: r.1,
         r.2.1, Event.sourceRemoved (itemPath up it) :: r.2.2)

/-- A member is fully incorporated when its source opened, its encrypted
entry was prepared, and its bytes were copied without error. -/
def readOk (eok cok : String → Bool) (up : String) (fs0 : FS) (it : FileItem) : Bool :=
  (lookupFS fs0 (itemPath up it)).isSome && eok (itemPath up it) && cok (itemPath up it)

/-- A member whose source opened and whose encrypted entry was prepared
(its entry exists in the archive, possibly truncated). -/
def openEncOk (eok : String → Bool) (up : String) (fs0 : FS) (it : FileItem) : Bool :=
  (lookupFS fs0 (itemPath up it)).isSome && eok (itemPath up it)

/-- The archive entry the loop writes for a member (full bytes on a clean
copy, the copied byte count only on a failing copy). -/
def entryOf (pc : String) (cok : String → Bool) (plen : String → Nat)
    (up : String) (fs0 : FS) (it : FileItem) : ZipEntry :=
  let b := ((lookupFS fs0 (itemPath up it)).map FsObj.bytes).getD []
  ZipEntry.mk it.realname pc "AES256"
    (if cok (itemPath up it) then b else b.take (plen (itemPath up it)))

/-! ## Recipient key resolution (lines 102-118) -/

/-- Lines 102-116: when user ids were supplied, the requester's own id is
appended to the share list (`userShares = append(bodyParams.UserIds,
userId.String())`), the keys of all those users are fetched, and, when any
row came back, every fetched key is collected. -/
def resolveUserKeys (db : DB) (userIds : List String) (userId : String) : List UserKey :=
  if 0 < userIds.length then
    let userShares := userIds ++ [userId]
    let userKeys := db.userKeys.filter (fun k => userShares.contains k.userId)
    if 0 < userKeys.length then userKeys else []
  else []

/-- The `userPubKeys` list passed to `age_encryption.EncryptFile`. -/
def resolveUserPubKeys (db : DB) (userIds : List String) (userId : String) : List String :=
  (resolveUserKeys db userIds userId).map (fun k => k.public)

/-- The user ids appended to `fileGroup.SharedToUserIds` in the same loop. -/
def resolveSharedIds (db : DB) (userIds : List String) (userId : String) : List String :=
  (resolveUserKeys db userIds userId).map (fun k => k.userId)

/-! ## The request handler (BundleFileGroup) -/

/-- The environment a single `BundleFileGroup` request runs in: the request
context and the behaviour of every external collaborator.

* `authUserId` — result of `middleware.GetUserId` (`none` = unauthorized);
* `bindOk` — whether `ShouldBindJSON` accepted the body;
* `bcrypt` — `bcrypt.GenerateFromPassword` (`none` = hashing error); the
  same function hashes the passcode and the download password;
* `db`, `fs` — the store and local filesystem at the start of the request;
* `bundlePath` / `uploadPath` — `dirpaths.bundle` / `dirpaths.upload`;
* `createZipOk` — whether `os.Create` of the archive file succeeds;
* `encryptEntryOk`, `copyOk`, `partialLen` — per-source-path outcomes of
  `zipCompressor.Encrypt` and `io.Copy` inside the loop;
* `wrapOk`, `wrapDest` — outcome and output path of
  `age_encryption.EncryptFile`;
* `parseTime` — `time.Parse(time.RFC3339, ·)` (`none` = parse error);
* `now`, `defaultExpiry` — `time.Now()` and the 30-day fallback expiry;
* `saveOk` — whether the final `db.Save` succeeds with at least one row;
* `shortlinkCode` — result of `shortlink.MakeNewCode` (`none` = error);
* `makeURL` — `shortlink.MakeURL`. -/
structure Env where
  authUserId : Option String
  bindOk : Bool
  bcrypt : String → Option String
  db : DB
  fs : FS
  bundlePath : String
  uploadPath : String
  createZipOk : Bool
  encryptEntryOk : String → Bool
  copyOk : String → Bool
  partialLen : String → Nat
  wrapOk : Bool
  wrapDest : String
  parseTime : String → Option Nat
  now : Nat
  defaultExpiry : Nat
  saveOk : Bool
  shortlinkCode : Option String
  makeURL : String → String

/-- The JSON body of the request (`BundleFileGroupParam`).  An absent
download password is the empty string, as in Go. -/
structure BundleFileGroupParam where
  fileGroupId : String
  expiredAt : String
  passcode : String
  downloadPassword : String
  userIds : List String
  deriving Repr, DecidableEq

/-- The error responses the handler can abort with, by branch. -/
inductive ErrKind where
  | unauthorized      -- line 39
  | invalidBody       -- line 48
  | passwordHash      -- line 57
  | invalidGroup      -- line 73
  | emptyGroup        -- line 83
  | createZip         -- line 95
  | encryptFile       -- line 160
  | saveFailed        -- line 183 (when the stale parse error is non-nil)
  | pinHash           -- line 223
  | shortlinkFailed   -- line 235
  deriving Repr, DecidableEq

/-- What the handler sends back.  `nilDeref` models the run that reaches
line 185 with `err == nil`: building the message calls `err.Error()` on a
nil interface and the handler crashes instead of responding. -/
inductive Resp where
  | err (k : ErrKind)
  | nilDeref
  | created (expiredAt : Nat) (downloadUrl : String)
  deriving Repr, DecidableEq

/-- Final state of a request: the response, the database and local
filesystem afterwards, and the ordered trace of effects. -/
structure Outcome where
  response : Resp
  db : DB
  fs : FS
  events : List Event
  deriving Repr, DecidableEq

/-- The row written by the final `db.Save`: passcode hash, bundled
timestamp and expiry set on the fetched group (lines 176-179). -/
def savedGroup (env : Env) (p : BundleFileGroupParam) (passcodeHash : String)
    (fg : FileGroup) : FileGroup :=
  { fg with
    archivePasscode := passcodeHash
    bundledAt := Option.some env.now
    expiredAt := Option.some ((env.parseTime p.expiredAt).getD env.defaultExpiry) }

/-- Lines 171-249: the tail of the handler after the recipient wrap.  `fg`
arrives with `FileKey` already pointing at the final artifact.  The expiry
string is parsed (line 171), falling back to a default on error but leaving
the handler's `err` variable behind; `db.Save` persists passcode hash,
bundled timestamp and expiry in one update (line 181) — on failure the error
response interpolates `err.Error()`, a nil dereference whenever the parse
had succeeded; on success the migration goroutine is launched (line 190),
the optional download password is hashed (line 221), and
`shortlink.MakeNewCode` mints the access credential (line 233) before the
created response is returned. -/
def afterWrap (env : Env) (p : BundleFileGroupParam) (passcodeHash : String)
    (fg : FileGroup) (fs : FS) (evs : List Event) : Outcome :=
  let parsed := env.parseTime p.expiredAt
  let expDate := parsed.getD env.defaultExpiry
  let fg1 := savedGroup env p passcodeHash fg
  if env.saveOk = false then
    match parsed with
    | Option.some _ => Outcome.mk Resp.nilDeref env.db fs evs
    | Option.none => Outcome.mk (Resp.err ErrKind.saveFailed) env.db fs evs
  else
    let db1 := env.db.saveGroup fg1
    if 0 < p.downloadPassword.length then
      match env.bcrypt p.downloadPassword with
      | Option.none =>
        Outcome.mk (Resp.err ErrKind.pinHash) db1 fs
          (evs ++ [Event.persisted fg1, Event.migrationLaunched fg1.fileKey])
      | Option.some pinHash =>
        match env.shortlinkCode with
        | Option.none =>
          Outcome.mk (Resp.err ErrKind.shortlinkFailed) db1 fs
            (evs ++ [Event.persisted fg1, Event.migrationLaunched fg1.fileKey])
        | Option.some code =>
          Outcome.mk (Resp.created expDate (env.makeURL code)) db1 fs
            (evs ++ [Event.persisted fg1, Event.migrationLaunched fg1.fileKey,
                     Event.minted fg1.id pinHash])
    else
      match env.shortlinkCode with
      | Option.none =>
        Outcome.mk (Resp.err ErrKind.shortlinkFailed) db1 fs
          (evs ++ [Event.persisted fg1, Event.migrationLaunched fg1.fileKey])
      | Option.some code =>
        Outcome.mk (Resp.created expDate (env.makeURL code)) db1 fs
          (evs ++ [Event.persisted fg1, Event.migrationLaunched fg1.fileKey,
                   Event.minted fg1.id ""])

/-- `BundleFileGroup` (lines 35-250), embedded as one request over `Env`.
Every abort before `db.Save` returns the database unchanged; the local
filesystem reflects the archive creation, the per-member removals and the
pre-wrap artifact removal exactly where the code performs them. -/
def bundleFileGroup (env : Env) (p : BundleFileGroupParam) : Outcome :=
  match env.authUserId with
  | Option.none => Outcome.mk (Resp.err ErrKind.unauthorized) env.db env.fs []
  | Option.some userId =>
    if env.bindOk = false then Outcome.mk (Resp.err ErrKind.invalidBody) env.db env.fs []
    else
      match env.bcrypt p.passcode with
      | Option.none => Outcome.mk (Resp.err ErrKind.passwordHash) env.db env.fs []
      | Option.some passcodeHash =>
        match env.db.fetchOwnedUnbundled p.fileGroupId userId with
        | Option.none => Outcome.mk (Resp.err ErrKind.invalidGroup) env.db env.fs []
        | Option.some fileGroup =>
          let fileItems := env.db.findItems fileGroup.id
          if fileItems.isEmpty then
            Outcome.mk (Resp.err ErrKind.emptyGroup) env.db env.fs []
          else
            let bundledFullPath := env.bundlePath ++ "/" ++ (fileGroup.id ++ ".zip")
            if env.createZipOk = false then
              Outcome.mk (Resp.err ErrKind.createZip) env.db env.fs []
            else
              let userPubKeys := resolveUserPubKeys env.db p.userIds userId
              let fg1 := { fileGroup with
                sharedToUserIds := fileGroup.sharedToUserIds ++
                  resolveSharedIds env.db p.userIds userId }
              let fs1 := writeFS env.fs bundledFullPath (FsObj.zipArchive [])
              let r := processItems p.passcode env.encryptEntryOk env.copyOk
                env.partialLen env.uploadPath fileItems fs1
              let fs3 := writeFS r.2.1 bundledFullPath (FsObj.zipArchive r.1)
              let evs0 := Event.zipCreated bundledFullPath :: r.2.2
              let fgA := { fg1 with fileKey := bundledFullPath }
              if 0 < userPubKeys.length then
                if env.wrapOk = false then
                  Outcome.mk (Resp.err ErrKind.encryptFile) env.db fs3 evs0
                else
                  let fs4 := writeFS fs3 env.wrapDest
                    (FsObj.ageWrapped (FsObj.zipArchive r.1) userPubKeys)
                  let fs5 := removeFS fs4 bundledFullPath
                  afterWrap env p passcodeHash { fgA with fileKey := env.wrapDest } fs5
                    (evs0 ++ [Event.wrapped bundledFullPath env.wrapDest userPubKeys,
                              Event.prewrapRemoved bundledFullPath])
              else
                afterWrap env p passcodeHash fgA fs3 evs0

/-! ## The migration goroutine (lines 190-216) -/

/-- `filepath.Base`. -/
def baseName (p : String) : String :=
  match (p.splitOn "/").reverse with
  | [] => p
  | x :: _ => x

/-- The S3 upload attempt: bucket, object key, uploaded object and the
`Expires` hint. -/
inductive MigEvent where
  | putObject (bucket key : String) (body : FsObj) (expires : Option Nat)
  deriving Repr, DecidableEq

/-- State after the migration goroutine finishes. -/
structure MigOutcome where
  db : DB
  fs : FS
  events : List MigEvent
  deriving Repr, DecidableEq

/-- The goroutine of lines 190-216: open the bundled file (log and stop if
that fails), `PutObject` its bytes under the path's base name with the
group's expiry as the `Expires` hint; on success overwrite the group's
`FileKey` with the key, `db.Save` it and remove the local file; on failure
only log.  Nothing is ever reported back to the request. -/
def migrationWorker (putOk : Bool) (bucket : String) (db : DB) (fs : FS)
    (fileGroup : FileGroup) (filePath : String) : MigOutcome :=
  let keyName := baseName filePath
  match lookupFS fs filePath with
  | Option.none => MigOutcome.mk db fs []
  | Option.some obj =>
    if putOk then
      let fg1 := { fileGroup with fileKey := keyName }
      MigOutcome.mk (db.saveGroup fg1) (removeFS fs filePath)
        [MigEvent.putObject bucket keyName obj fileGroup.expiredAt]
    else
      MigOutcome.mk db fs [MigEvent.putObject bucket keyName obj fileGroup.expiredAt]

/-! ## Interleaving model of concurrent bundling (lines 66-78 and 181-188)

Two concurrent `BundleFileGroup` requests for the same group reduce, as far
as the store is concerned, to two database operations each: the conditional
fetch (`WHERE id = ? AND "userId" = ? AND "bundledAt" IS NULL ... First`)
and the final `db.Save`, which GORM issues as an `UPDATE` keyed by the
primary key alone.  Everything in between touches only request-local state,
so an interleaving of the two requests is a schedule of these four store
operations. -/

/-- The group row as the race sees it. -/
structure CGroup where
  userId : String
  bundledAt : Option Nat
  deriving Repr, DecidableEq

/-- What one caller has observed so far. -/
inductive CRes where
  | pending
  | success
  | invalidGroup
  | saveFailed
  deriving Repr, DecidableEq

/-- One in-flight request: its user, its program counter (0 = before the
conditional fetch, 1 = fetched successfully, 2 = finished) and its result. -/
structure CProc where
  uid : String
  pc : Nat
  res : CRes
  deriving Repr, DecidableEq

/-- The conditional fetch: does a row exist that is owned by `uid` and not
yet bundled? -/
def condFetchStep (st : Option CGroup) (uid : String) : Bool :=
  match st with
  | Option.some g => g.userId == uid && g.bundledAt.isNone
  | Option.none => false

/-- GORM `db.Save` on the fetched row: an update keyed only by the primary
key.  It reports the row as affected whenever the row exists, bundled or
not. -/
def gormSave (st : Option CGroup) (g : CGroup) : Option CGroup × Nat :=
  match st with
  | Option.some _ => (Option.some g, 1)
  | Option.none => (Option.none, 0)

/-- One store operation of one request: at pc 0 the conditional fetch
(failure is the `Invalid file group` abort), at pc 1 the save (success is
the created response, zero rows the save-failure abort). -/
def procStep (now : Nat) (st : Option CGroup) (p : CProc) : Option CGroup × CProc :=
  if p.pc = 0 then
    if condFetchStep st p.uid then (st, { p with pc := 1 })
    else (st, { p with pc := 2, res := CRes.invalidGroup })
  else if p.pc = 1 then
    let r := gormSave st (CGroup.mk p.uid (Option.some now))
    if 0 < r.2 then (r.1, { p with pc := 2, res := CRes.success })
    else (r.1, { p with pc := 2, res := CRes.saveFailed })
  else (st, p)

/-- Run a schedule over two concurrent requests: `false` steps the first
caller, `true` the second. -/
def runSched (now : Nat) : List Bool → Option CGroup → CProc × CProc →
    Option CGroup × CProc × CProc
  | [], st, ps => (st, ps)
  | b :: rest, st, ps =>
    if b then
      let r := procStep now st ps.2
      runSched now rest r.1 (ps.1, r.2)
    else
      let r := procStep now st ps.1
      runSched now rest r.1 (r.2, ps.2)

/-! ## LazyScryptIdentity.Unwrap (src/unnamed/part_000, lines 84-111) -/

/-- A recipient stanza of an age envelope; `Unwrap` inspects only its
`Type`. -/
structure Stanza where
  type : String
  deriving Repr, DecidableEq

/-- What the passphrase callback (`i.Passphrase`) returned. -/
inductive PassResult where
  | ok (pass : String)
  | err (msg : String)
  deriving Repr, DecidableEq

/-- Outcome of the inner, library-provided `ScryptIdentity.Unwrap` call:
success with the file key, `age.ErrIncorrectIdentity` (which it returns for
a wrong passphrase), or any other error. -/
inductive InnerResult where
  | ok (k : Bytes)
  | incorrectIdentity
  | other (m : String)
  deriving Repr, DecidableEq

/-- Behaviour of the external age library: whether `NewScryptIdentity`
rejects the passphrase (work-factor validation), and what the inner
`Unwrap` returns for a given passphrase and stanza list. -/
structure AgeOracle where
  newScryptErr : String → Option String
  scryptUnwrap : String → List Stanza → InnerResult

/-- Result of `LazyScryptIdentity.Unwrap`, by source line. -/
inductive UnwrapResult where
  | fileKey (k : Bytes)                 -- line 110, success
  | scryptMustBeOnly                    -- line 87
  | incorrectIdentity                   -- line 91, age.ErrIncorrectIdentity
  | passphraseReadFailed (m : String)   -- line 95
  | newScryptIdentityFailed (m : String) -- line 99
  | incorrectPassphrase                 -- line 108
  | otherError (m : String)             -- line 110, non-identity inner error
  deriving Repr, DecidableEq

/-- Lines 84-111.  The first component records whether the passphrase
callback was invoked.  The loop rejects an scrypt stanza accompanied by any
other stanza; a list that is not exactly one scrypt stanza yields
`age.ErrIncorrectIdentity` without prompting; only then is the passphrase
requested and delegated to `ScryptIdentity`, whose
`ErrIncorrectIdentity` is rewritten to the dedicated incorrect-passphrase
error. -/
def lazyScryptUnwrap (o : AgeOracle) (passphrase : PassResult)
    (stanzas : List Stanza) : Bool × UnwrapResult :=
  if stanzas.any (fun s => s.type == "scrypt" && stanzas.length != 1) then
    (false, UnwrapResult.scryptMustBeOnly)
  else if stanzas.length != 1 || (stanzas.headD (Stanza.mk "")).type != "scrypt" then
    (false, UnwrapResult.incorrectIdentity)
  else
    match passphrase with
    | PassResult.err m => (true, UnwrapResult.passphraseReadFailed m)
    | PassResult.ok pass =>
      match o.newScryptErr pass with
      | Option.some m => (true, UnwrapResult.newScryptIdentityFailed m)
      | Option.none =>
        match o.scryptUnwrap pass stanzas with
        | InnerResult.incorrectIdentity => (true, UnwrapResult.incorrectPassphrase)
        | InnerResult.other m => (true, UnwrapResult.otherError m)
        | InnerResult.ok k => (true, UnwrapResult.fileKey k)

/-! ## Claim-side definitions -/

/-- `a` occurs strictly before `b` in the trace `l`. -/
def eventBefore (a b : Event) (l : List Event) : Prop :=
  ∃ i j, i < j ∧ l.get? i = Option.some a ∧ l.get? j = Option.some b

/-- The error kinds of aborts that happen before the atomic persistence
step (spec section 7: every failure up to and including the recipient-wrap
`EncryptionError`). -/
def prePersistenceKind : ErrKind → Bool
  | ErrKind.unauthorized => true
  | ErrKind.invalidBody => true
  | ErrKind.passwordHash => true
  | ErrKind.invalidGroup => true
  | ErrKind.emptyGroup => true
  | ErrKind.createZip => true
  | ErrKind.encryptFile => true
  | _ => false

/-- The archive contents claim C3 asserts, in the spec's words: exactly the
successfully-read source files (opened, entry prepared, copied without
error), each under its display name, encrypted under the passcode, with
their full bytes. -/
def specArchiveC3 (pc : String) (eok cok : String → Bool)
    (up : String) (items : List FileItem) (fs0 : FS) : List ZipEntry :=
  (items.filter (readOk eok cok up fs0)).map (fun it =>
    ZipEntry.mk it.realname pc "AES256"
      (((lookupFS fs0 (itemPath up it)).map FsObj.bytes).getD []))


/-! ## Concrete fixtures for witnesses and counterexamples -/

/-- A concrete happy-path environment: group "g1" owned by "u1" with one
member file on disk, the owner's key registered, every external call
succeeding; bcrypt is modelled as prefixing "H". -/
def envOk : Env :=
  Env.mk (Option.some "u1") true (fun s => Option.some (String.append "H" s))
    (DB.mk [FileGroup.mk "g1" "u1" Option.none Option.none "" "" []]
      [FileItem.mk "g1" "f1" "A.txt"] [UserKey.mk "u1" "PK1"])
    [("up/f1", FsObj.plain [7, 8])] "b" "up" true (fun _ => true) (fun _ => true)
    (fun _ => 0) true "b/g1.zip.age"
    (fun s => if s = "2030-01-01T00:00:00Z" then Option.some 100 else Option.none)
    50 999 true (Option.some "c0de") (fun c => String.append "url/" c)

/-- Same as `envOk` but the recipient wrap (`age_encryption.EncryptFile`)
fails. -/
def envWrapFail : Env := { envOk with wrapOk := false }

/-- Same as `envOk` but the final `db.Save` fails. -/
def envSaveFail : Env := { envOk with saveOk := false }

/-- A request sharing the group with user "u2", with a download password. -/
def reqShare : BundleFileGroupParam :=
  BundleFileGroupParam.mk "g1" "2030-01-01T00:00:00Z" "secret1" "dlpass1" ["u2"]

/-- A request with no recipients and no download password. -/
def reqPlain : BundleFileGroupParam :=
  BundleFileGroupParam.mk "g1" "2030-01-01T00:00:00Z" "secret1" "" []

/-! ## Theorems: filesystem lemmas -/

theorem lookupFS_removeFS_self (fs : FS) (p : String) :
    lookupFS (removeFS fs p) p = Option.none := by
  induction fs with
  | nil => rfl
  | cons e rest ih =>
    by_cases h : e.1 = p
    · simpa [removeFS, h] using ih
    · simpa [removeFS, lookupFS, h] using ih

theorem lookupFS_removeFS_ne (fs : FS) (p q : String) (h : q ≠ p) :
    lookupFS (removeFS fs p) q = lookupFS fs q := by
  induction fs with
  | nil => rfl
  | cons e rest ih =>
    by_cases he : e.1 = p
    · have h2 : e.1 ≠ q := fun hq => h (by rw [← hq, he])
      simp only [removeFS, if_pos he, lookupFS, if_neg h2]
      exact ih
    · by_cases hq : e.1 = q <;> simp [removeFS, lookupFS, he, hq, h, ih]

theorem lookupFS_writeFS_self (fs : FS) (p : String) (o : FsObj) :
    lookupFS (writeFS fs p o) p = Option.some o := by
  simp [writeFS, lookupFS]

theorem lookupFS_writeFS_ne (fs : FS) (p q : String) (o : FsObj) (h : q ≠ p) :
    lookupFS (writeFS fs p o) q = lookupFS fs q := by
  simp only [writeFS, lookupFS, if_neg (Ne.symm h)]
  exact lookupFS_removeFS_ne fs p q h

/-! ## Theorems: the zip loop -/

theorem processItems_lookup_none (pc : String) (eok cok : String → Bool)
    (plen : String → Nat) (up : String) (items : List FileItem) (fs : FS)
    (q : String) (h : lookupFS fs q = Option.none) :
    lookupFS (processItems pc eok cok plen up items fs).2.1 q = Option.none := by
  induction items generalizing fs with
  | nil => simpa [processItems] using h
  | cons it rest ih =>
    cases hl : lookupFS fs (itemPath up it) with
    | none =>
      simp only [processItems, hl]
      exact ih fs h
    | some obj =>
      cases he : eok (itemPath up it) with
      | false =>
        simp only [processItems, hl, he]
        exact ih fs h
      | true =>
        cases hc : cok (itemPath up it) with
        | false =>
          simp only [processItems, hl, he, hc]
          exact ih fs h
        | true =>
          simp only [processItems, hl, he, hc]
          apply ih
          by_cases hq : q = itemPath up it
          · simpa [hq] using lookupFS_removeFS_self fs (itemPath up it)
          · rw [lookupFS_removeFS_ne fs _ q hq]; exact h

theorem processItems_lookup_notin (pc : String) (eok cok : String → Bool)
    (plen : String → Nat) (up : String) (items : List FileItem) (fs : FS)
    (q : String) (h : ∀ it ∈ items, q ≠ itemPath up it) :
    lookupFS (processItems pc eok cok plen up items fs).2.1 q = lookupFS fs q := by
  induction items generalizing fs with
  | nil => simp [processItems]
  | cons it rest ih =>
    have hq : q ≠ itemPath up it := h it (by simp)
    have hrest : ∀ it' ∈ rest, q ≠ itemPath up it' := fun it' hm => h it' (by simp [hm])
    cases hl : lookupFS fs (itemPath up it) with
    | none =>
      simp only [processItems, hl]
      exact ih fs hrest
    | some obj =>
      cases he : eok (itemPath up it) with
      | false =>
        simp only [processItems, hl, he]
        exact ih fs hrest
      | true =>
        cases hc : cok (itemPath up it) with
        | false =>
          simp only [processItems, hl, he, hc]
          exact ih fs hrest
        | true =>
          simp only [processItems, hl, he, hc]
          rw [ih _ hrest]
          exact lookupFS_removeFS_ne fs _ q hq

theorem processItems_events_sourceRemoved (pc : String) (eok cok : String → Bool)
    (plen : String → Nat) (up : String) (items : List FileItem) (fs : FS) :
    ∀ e ∈ (processItems pc eok cok plen up items fs).2.2,
      ∃ q, e = Event.sourceRemoved q := by
  induction items generalizing fs with
  | nil => simp [processItems]
  | cons it rest ih =>
    cases hl : lookupFS fs (itemPath up it) with
    | none =>
      simp only [processItems, hl]
      exact ih fs
    | some obj =>
      cases he : eok (itemPath up it) with
      | false =>
        simp only [processItems, hl, he]
        exact ih fs
      | true =>
        cases hc : cok (itemPath up it) with
        | false =>
          simp only [processItems, hl, he, hc]
          exact ih fs
        | true =>
          simp only [processItems, hl, he, hc]
          intro e hm
          rcases List.mem_cons.mp hm with h1 | h2
          · exact ⟨itemPath up it, h1⟩
          · exact ih _ e h2

theorem processItems_entries_agree (pc : String) (eok cok : String → Bool)
    (plen : String → Nat) (up : String) (items : List FileItem) (fs0 : FS) :
    ∀ fs : FS,
      (∀ it ∈ items, lookupFS fs (itemPath up it) = lookupFS fs0 (itemPath up it)) →
      (items.map (itemPath up)).Nodup →
      (processItems pc eok cok plen up items fs).1 =
        (items.filter (openEncOk eok up fs0)).map (entryOf pc cok plen up fs0) := by
  induction items with
  | nil => intro fs _ _; simp [processItems]
  | cons it rest ih =>
    intro fs hag hnd
    rw [List.map_cons, List.nodup_cons] at hnd
    have hhead := hag it (by simp)
    have hagrest : ∀ it' ∈ rest,
        lookupFS fs (itemPath up it') = lookupFS fs0 (itemPath up it') :=
      fun it' hm => hag it' (by simp [hm])
    have hne : ∀ it' ∈ rest, itemPath up it' ≠ itemPath up it := by
      intro it' hm heq
      exact hnd.1 (heq ▸ List.mem_map_of_mem (itemPath up) hm)
    cases hl : lookupFS fs0 (itemPath up it) with
    | none =>
      have hfs : lookupFS fs (itemPath up it) = Option.none := by rw [hhead, hl]
      have hopen : openEncOk eok up fs0 it = false := by simp [openEncOk, hl]
      simp only [processItems, hfs, List.filter_cons, hopen, Bool.false_eq_true, if_false]
      exact ih fs hagrest hnd.2
    | some obj =>
      have hfs : lookupFS fs (itemPath up it) = Option.some obj := by rw [hhead, hl]
      cases he : eok (itemPath up it) with
      | false =>
        have hopen : openEncOk eok up fs0 it = false := by simp [openEncOk, he]
        simp only [processItems, hfs, he, List.filter_cons, hopen, Bool.false_eq_true,
          if_false]
        exact ih fs hagrest hnd.2
      | true =>
        have hopen : openEncOk eok up fs0 it = true := by simp [openEncOk, hl, he]
        cases hc : cok (itemPath up it) with
        | false =>
          have hhd : ZipEntry.mk it.realname pc "AES256"
              (obj.bytes.take (plen (itemPath up it))) = entryOf pc cok plen up fs0 it := by
            simp [entryOf, hl, hc]
          simp only [processItems, hfs, he, hc, List.filter_cons, hopen, if_true,
            List.map_cons]
          rw [ih fs hagrest hnd.2, hhd]
        | true =>
          have hag2 : ∀ it' ∈ rest,
              lookupFS (removeFS fs (itemPath up it)) (itemPath up it') =
                lookupFS fs0 (itemPath up it') := by
            intro it' hm
            rw [lookupFS_removeFS_ne fs _ _ (hne it' hm)]
            exact hagrest it' hm
          have hhd : ZipEntry.mk it.realname pc "AES256" obj.bytes =
              entryOf pc cok plen up fs0 it := by
            simp [entryOf, hl, hc]
          simp only [processItems, hfs, he, hc, List.filter_cons, hopen, if_true,
            List.map_cons]
          rw [ih (removeFS fs (itemPath up it)) hag2 hnd.2, hhd]

theorem processItems_fs_agree (pc : String) (eok cok : String → Bool)
    (plen : String → Nat) (up : String) (items : List FileItem) (fs0 : FS) :
    ∀ fs : FS,
      (∀ it ∈ items, lookupFS fs (itemPath up it) = lookupFS fs0 (itemPath up it)) →
      (items.map (itemPath up)).Nodup →
      ∀ it ∈ items,
        lookupFS (processItems pc eok cok plen up items fs).2.1 (itemPath up it) =
          (if readOk eok cok up fs0 it = true then Option.none
           else lookupFS fs0 (itemPath up it)) := by
  induction items with
  | nil => intro fs _ _ it hmem; exact absurd hmem (List.not_mem_nil it)
  | cons ithd rest ih =>
    intro fs hag hnd it hmem
    rw [List.map_cons, List.nodup_cons] at hnd
    have hhead := hag ithd (by simp)
    have hagrest : ∀ it' ∈ rest,
        lookupFS fs (itemPath up it') = lookupFS fs0 (itemPath up it') :=
      fun it' hm => hag it' (by simp [hm])
    have hne : ∀ it' ∈ rest, itemPath up it' ≠ itemPath up ithd := by
      intro it' hm heq
      exact hnd.1 (heq ▸ List.mem_map_of_mem (itemPath up) hm)
    rcases List.mem_cons.mp hmem with hcase | hcase
    · subst hcase
      have hne' : ∀ it' ∈ rest, itemPath up it ≠ itemPath up it' :=
        fun it' hm => (hne it' hm).symm
      cases hl : lookupFS fs0 (itemPath up it) with
      | none =>
        have hfs : lookupFS fs (itemPath up it) = Option.none := by rw [hhead, hl]
        have hro : readOk eok cok up fs0 it = false := by simp [readOk, hl]
        simp only [processItems, hfs, hro, Bool.false_eq_true, if_false, hl]
        exact processItems_lookup_none pc eok cok plen up rest fs _ hfs
      | some obj =>
        have hfs : lookupFS fs (itemPath up it) = Option.some obj := by rw [hhead, hl]
        cases he : eok (itemPath up it) with
        | false =>
          have hro : readOk eok cok up fs0 it = false := by simp [readOk, he]
          simp only [processItems, hfs, he, hro, Bool.false_eq_true, if_false]
          rw [processItems_lookup_notin pc eok cok plen up rest fs _ hne']
          rw [hhead]
          exact hl
        | true =>
          cases hc : cok (itemPath up it) with
          | false =>
            have hro : readOk eok cok up fs0 it = false := by simp [readOk, hc]
            simp only [processItems, hfs, he, hc, hro, Bool.false_eq_true, if_false]
            rw [processItems_lookup_notin pc eok cok plen up rest fs _ hne']
            rw [hhead]
            exact hl
          | true =>
            have hro : readOk eok cok up fs0 it = true := by simp [readOk, hl, he, hc]
            simp only [processItems, hfs, he, hc, hro, if_true]
            exact processItems_lookup_none pc eok cok plen up rest _ _
              (lookupFS_removeFS_self fs (itemPath up it))
    · cases hl : lookupFS fs (itemPath up ithd) with
      | none =>
        simp only [processItems, hl]
        exact ih fs hagrest hnd.2 it hcase
      | some obj =>
        cases he : eok (itemPath up ithd) with
        | false =>
          simp only [processItems, hl, he]
          exact ih fs hagrest hnd.2 it hcase
        | true =>
          cases hc : cok (itemPath up ithd) with
          | false =>
            simp only [processItems, hl, he, hc]
            exact ih fs hagrest hnd.2 it hcase
          | true =>
            have hag2 : ∀ it' ∈ rest,
                lookupFS (removeFS fs (itemPath up ithd)) (itemPath up it') =
                  lookupFS fs0 (itemPath up it') := by
              intro it' hm
              rw [lookupFS_removeFS_ne fs _ _ (hne it' hm)]
              exact hagrest it' hm
            simp only [processItems, hl, he, hc]
            exact ih (removeFS fs (itemPath up ithd)) hag2 hnd.2 it hcase

/-! ## Theorems: handler case analysis -/

theorem bundleFileGroup_cases (env : Env) (p : BundleFileGroupParam) :
    (env.authUserId = Option.none ∧
      bundleFileGroup env p = Outcome.mk (Resp.err ErrKind.unauthorized) env.db env.fs [])
    ∨ (env.bindOk = false ∧
      bundleFileGroup env p = Outcome.mk (Resp.err ErrKind.invalidBody) env.db env.fs [])
    ∨ (env.bcrypt p.passcode = Option.none ∧
      bundleFileGroup env p = Outcome.mk (Resp.err ErrKind.passwordHash) env.db env.fs [])
    ∨ (∃ userId, env.authUserId = Option.some userId ∧
      env.db.fetchOwnedUnbundled p.fileGroupId userId = Option.none ∧
      bundleFileGroup env p = Outcome.mk (Resp.err ErrKind.invalidGroup) env.db env.fs [])
    ∨ (∃ userId fileGroup, env.authUserId = Option.some userId ∧
      env.db.fetchOwnedUnbundled p.fileGroupId userId = Option.some fileGroup ∧
      (env.db.findItems fileGroup.id).isEmpty = true ∧
      bundleFileGroup env p = Outcome.mk (Resp.err ErrKind.emptyGroup) env.db env.fs [])
    ∨ (env.createZipOk = false ∧
      bundleFileGroup env p = Outcome.mk (Resp.err ErrKind.createZip) env.db env.fs [])
    ∨ (∃ userId passcodeHash fileGroup,
      env.authUserId = Option.some userId ∧
      env.bcrypt p.passcode = Option.some passcodeHash ∧
      env.db.fetchOwnedUnbundled p.fileGroupId userId = Option.some fileGroup ∧
      (env.db.findItems fileGroup.id).isEmpty = false ∧
      env.createZipOk = true ∧
      (let fileItems := env.db.findItems fileGroup.id
       let bundledFullPath := env.bundlePath ++ "/" ++ (fileGroup.id ++ ".zip")
       let userPubKeys := resolveUserPubKeys env.db p.userIds userId
       let fg1 := { fileGroup with
         sharedToUserIds :=
           fileGroup.sharedToUserIds ++ resolveSharedIds env.db p.userIds userId }
       let r := processItems p.passcode env.encryptEntryOk env.copyOk env.partialLen
         env.uploadPath fileItems (writeFS env.fs bundledFullPath (FsObj.zipArchive []))
       let fs3 := writeFS r.2.1 bundledFullPath (FsObj.zipArchive r.1)
       let evs0 := Event.zipCreated bundledFullPath :: r.2.2
       let fgA := { fg1 with fileKey := bundledFullPath }
       (0 < userPubKeys.length ∧ env.wrapOk = false ∧
         bundleFileGroup env p = Outcome.mk (Resp.err ErrKind.encryptFile) env.db fs3 evs0)
       ∨ (0 < userPubKeys.length ∧ env.wrapOk = true ∧
         bundleFileGroup env p = afterWrap env p passcodeHash
           { fgA with fileKey := env.wrapDest }
           (removeFS (writeFS fs3 env.wrapDest
             (FsObj.ageWrapped (FsObj.zipArchive r.1) userPubKeys)) bundledFullPath)
           (evs0 ++ [Event.wrapped bundledFullPath env.wrapDest userPubKeys,
                     Event.prewrapRemoved bundledFullPath]))
       ∨ (userPubKeys.length = 0 ∧
         bundleFileGroup env p = afterWrap env p passcodeHash fgA fs3 evs0))) := by
  cases ha : env.authUserId with
  | none =>
    refine Or.inl ⟨rfl, ?_⟩
    simp only [bundleFileGroup, ha]
  | some userId =>
    by_cases hb : env.bindOk = false
    · refine Or.inr (Or.inl ⟨hb, ?_⟩)
      simp only [bundleFileGroup, ha]
      rw [if_pos hb]
    · cases hbc : env.bcrypt p.passcode with
      | none =>
        refine Or.inr (Or.inr (Or.inl ⟨rfl, ?_⟩))
        simp only [bundleFileGroup, ha, hbc]
        rw [if_neg hb]
      | some ph =>
        cases hf : env.db.fetchOwnedUnbundled p.fileGroupId userId with
        | none =>
          refine Or.inr (Or.inr (Or.inr (Or.inl ⟨userId, rfl, hf, ?_⟩)))
          simp only [bundleFileGroup, ha, hbc, hf]
          rw [if_neg hb]
        | some fileGroup =>
          by_cases hempty : (env.db.findItems fileGroup.id).isEmpty = true
          · refine Or.inr (Or.inr (Or.inr (Or.inr (Or.inl
              ⟨userId, fileGroup, rfl, hf, hempty, ?_⟩))))
            simp only [bundleFileGroup, ha, hbc, hf]
            rw [if_neg hb, if_pos hempty]
          · by_cases hzip : env.createZipOk = false
            · refine Or.inr (Or.inr (Or.inr (Or.inr (Or.inr (Or.inl ⟨hzip, ?_⟩)))))
              simp only [bundleFileGroup, ha, hbc, hf]
              rw [if_neg hb, if_neg hempty, if_pos hzip]
            · refine Or.inr (Or.inr (Or.inr (Or.inr (Or.inr (Or.inr
                ⟨userId, ph, fileGroup, rfl, rfl, hf, by simpa using hempty,
                  by simpa using hzip, ?_⟩)))))
              by_cases hkeys : 0 < (resolveUserPubKeys env.db p.userIds userId).length
              · by_cases hw : env.wrapOk = false
                · refine Or.inl ⟨hkeys, hw, ?_⟩
                  simp only [bundleFileGroup, ha, hbc, hf]
                  rw [if_neg hb, if_neg hempty, if_neg hzip, if_pos hkeys, if_pos hw]
                · refine Or.inr (Or.inl ⟨hkeys, by simpa using hw, ?_⟩)
                  simp only [bundleFileGroup, ha, hbc, hf]
                  rw [if_neg hb, if_neg hempty, if_neg hzip, if_pos hkeys, if_neg hw]
              · refine Or.inr (Or.inr ⟨by omega, ?_⟩)
                simp only [bundleFileGroup, ha, hbc, hf]
                rw [if_neg hb, if_neg hempty, if_neg hzip, if_neg hkeys]

theorem afterWrap_err_kind (env : Env) (p : BundleFileGroupParam) (ph : String)
    (fg : FileGroup) (fs : FS) (evs : List Event) (k : ErrKind)
    (h : (afterWrap env p ph fg fs evs).response = Resp.err k) :
    prePersistenceKind k = false := by
  simp only [afterWrap] at h
  split at h
  · split at h
    · simp at h
    · have hk : ErrKind.saveFailed = k := by simpa using h
      subst hk; rfl
  · split at h
    · split at h
      · have hk : ErrKind.pinHash = k := by simpa using h
        subst hk; rfl
      · split at h
        · have hk : ErrKind.shortlinkFailed = k := by simpa using h
          subst hk; rfl
        · simp at h
    · split at h
      · have hk : ErrKind.shortlinkFailed = k := by simpa using h
        subst hk; rfl
      · simp at h

theorem afterWrap_db_on_saveFail (env : Env) (p : BundleFileGroupParam) (ph : String)
    (fg : FileGroup) (fs : FS) (evs : List Event) (hsave : env.saveOk = false) :
    (afterWrap env p ph fg fs evs).db = env.db := by
  simp only [afterWrap]
  rw [if_pos hsave]
  cases env.parseTime p.expiredAt <;> rfl

theorem afterWrap_saveFail_nilDeref (env : Env) (p : BundleFileGroupParam) (ph : String)
    (fg : FileGroup) (fs : FS) (evs : List Event)
    (hparse : (env.parseTime p.expiredAt).isSome) (hsave : env.saveOk = false) :
    (afterWrap env p ph fg fs evs).response = Resp.nilDeref := by
  simp only [afterWrap]
  rw [if_pos hsave]
  cases hp : env.parseTime p.expiredAt with
  | none => rw [hp] at hparse; simp at hparse
  | some t => rfl

theorem afterWrap_events_tail (env : Env) (p : BundleFileGroupParam) (ph : String)
    (fg : FileGroup) (fs : FS) (evs : List Event) :
    ∃ tail, (afterWrap env p ph fg fs evs).events = evs ++ tail ∧
      (∀ q, Event.prewrapRemoved q ∉ tail) ∧
      (∀ s d ks, Event.wrapped s d ks ∉ tail) ∧
      (∀ g, Event.persisted g ∈ tail → g = savedGroup env p ph fg) ∧
      (∀ gid pin, Event.minted gid pin ∈ tail → gid = (savedGroup env p ph fg).id) := by
  simp only [afterWrap]
  split
  · split
    · exact ⟨[], by simp, by simp, by simp, by simp, by simp⟩
    · exact ⟨[], by simp, by simp, by simp, by simp, by simp⟩
  · split
    · cases env.bcrypt p.downloadPassword with
      | none =>
        refine ⟨[Event.persisted (savedGroup env p ph fg),
          Event.migrationLaunched (savedGroup env p ph fg).fileKey], rfl, ?_, ?_, ?_, ?_⟩
        · intro q hq; simp at hq
        · intro s d ks hq; simp at hq
        · intro g hg; simpa using hg
        · intro gid pin hm; simp at hm
      | some pin =>
        cases env.shortlinkCode with
        | none =>
          refine ⟨[Event.persisted (savedGroup env p ph fg),
            Event.migrationLaunched (savedGroup env p ph fg).fileKey], rfl, ?_, ?_, ?_, ?_⟩
          · intro q hq; simp at hq
          · intro s d ks hq; simp at hq
          · intro g hg; simpa using hg
          · intro gid pin hm; simp at hm
        | some code =>
          refine ⟨[Event.persisted (savedGroup env p ph fg),
            Event.migrationLaunched (savedGroup env p ph fg).fileKey,
            Event.minted (savedGroup env p ph fg).id pin], rfl, ?_, ?_, ?_, ?_⟩
          · intro q hq; simp at hq
          · intro s d ks hq; simp at hq
          · intro g hg; simpa using hg
          · intro gid pin hm
            simp only [List.mem_cons, List.not_mem_nil, or_false] at hm
            rcases hm with hm | hm | hm
            · exact absurd hm (by simp)
            · exact absurd hm (by simp)
            · exact (Event.minted.injEq _ _ _ _).mp hm |>.1
    · cases env.shortlinkCode with
      | none =>
        refine ⟨[Event.persisted (savedGroup env p ph fg),
          Event.migrationLaunched (savedGroup env p ph fg).fileKey], rfl, ?_, ?_, ?_, ?_⟩
        · intro q hq; simp at hq
        · intro s d ks hq; simp at hq
        · intro g hg; simpa using hg
        · intro gid pin hm; simp at hm
      | some code =>
        refine ⟨[Event.persisted (savedGroup env p ph fg),
          Event.migrationLaunched (savedGroup env p ph fg).fileKey,
          Event.minted (savedGroup env p ph fg).id ""], rfl, ?_, ?_, ?_, ?_⟩
        · intro q hq; simp at hq
        · intro s d ks hq; simp at hq
        · intro g hg; simpa using hg
        · intro gid pin hm
          simp only [List.mem_cons, List.not_mem_nil, or_false] at hm
          rcases hm with hm | hm | hm
          · exact absurd hm (by simp)
          · exact absurd hm (by simp)
          · exact (Event.minted.injEq _ _ _ _).mp hm |>.1

theorem afterWrap_minted (env : Env) (p : BundleFileGroupParam) (ph : String)
    (fg : FileGroup) (fs : FS) (evs : List Event)
    (hno : ∀ gid pin, Event.minted gid pin ∉ evs) (gid pin : String)
    (hm : Event.minted gid pin ∈ (afterWrap env p ph fg fs evs).events) :
    gid = (savedGroup env p ph fg).id ∧
    (afterWrap env p ph fg fs evs).events =
      evs ++ [Event.persisted (savedGroup env p ph fg),
              Event.migrationLaunched (savedGroup env p ph fg).fileKey,
              Event.minted gid pin] := by
  simp only [afterWrap] at hm ⊢
  by_cases hsv : env.saveOk = false
  · rw [if_pos hsv] at hm ⊢
    cases hp : env.parseTime p.expiredAt <;> rw [hp] at hm <;>
      exact absurd hm (hno gid pin)
  · rw [if_neg hsv] at hm ⊢
    by_cases hdp : 0 < p.downloadPassword.length
    · rw [if_pos hdp] at hm ⊢
      cases hb : env.bcrypt p.downloadPassword with
      | none =>
        rw [hb] at hm
        rcases List.mem_append.mp hm with hm | hm
        · exact absurd hm (hno gid pin)
        · rcases List.mem_cons.mp hm with hm | hm
          · exact Event.noConfusion hm
          · rcases List.mem_cons.mp hm with hm | hm
            · exact Event.noConfusion hm
            · exact absurd hm (List.not_mem_nil _)
      | some pin2 =>
        rw [hb] at hm
        cases hc : env.shortlinkCode with
        | none =>
          rw [hc] at hm
          rcases List.mem_append.mp hm with hm | hm
          · exact absurd hm (hno gid pin)
          · rcases List.mem_cons.mp hm with hm | hm
            · exact Event.noConfusion hm
            · rcases List.mem_cons.mp hm with hm | hm
              · exact Event.noConfusion hm
              · exact absurd hm (List.not_mem_nil _)
        | some code =>
          rw [hc] at hm
          rcases List.mem_append.mp hm with hm | hm
          · exact absurd hm (hno gid pin)
          · rcases List.mem_cons.mp hm with hm | hm
            · exact Event.noConfusion hm
            · rcases List.mem_cons.mp hm with hm | hm
              · exact Event.noConfusion hm
              · rcases List.mem_cons.mp hm with hm | hm
                · rcases (Event.minted.injEq _ _ _ _).mp hm with ⟨h1, h2⟩
                  subst h1; subst h2
                  exact ⟨rfl, rfl⟩
                · exact absurd hm (List.not_mem_nil _)
    · rw [if_neg hdp] at hm ⊢
      cases hc : env.shortlinkCode with
      | none =>
        rw [hc] at hm
        rcases List.mem_append.mp hm with hm | hm
        · exact absurd hm (hno gid pin)
        · rcases List.mem_cons.mp hm with hm | hm
          · exact Event.noConfusion hm
          · rcases List.mem_cons.mp hm with hm | hm
            · exact Event.noConfusion hm
            · exact absurd hm (List.not_mem_nil _)
      | some code =>
        rw [hc] at hm
        rcases List.mem_append.mp hm with hm | hm
        · exact absurd hm (hno gid pin)
        · rcases List.mem_cons.mp hm with hm | hm
          · exact Event.noConfusion hm
          · rcases List.mem_cons.mp hm with hm | hm
            · exact Event.noConfusion hm
            · rcases List.mem_cons.mp hm with hm | hm
              · rcases (Event.minted.injEq _ _ _ _).mp hm with ⟨h1, h2⟩
                subst h1; subst h2
                exact ⟨rfl, rfl⟩
              · exact absurd hm (List.not_mem_nil _)

theorem afterWrap_created_mints (env : Env) (p : BundleFileGroupParam) (ph : String)
    (fg : FileGroup) (fs : FS) (evs : List Event) (ex : Nat) (url : String)
    (hr : (afterWrap env p ph fg fs evs).response = Resp.created ex url)
    (hdp : 0 < p.downloadPassword.length) :
    ∃ h, env.bcrypt p.downloadPassword = Option.some h ∧
      Event.minted (savedGroup env p ph fg).id h ∈ (afterWrap env p ph fg fs evs).events := by
  simp only [afterWrap] at hr ⊢
  by_cases hsv : env.saveOk = false
  · rw [if_pos hsv] at hr
    cases hp : env.parseTime p.expiredAt <;> rw [hp] at hr <;> simp at hr
  · rw [if_neg hsv] at hr ⊢
    rw [if_pos hdp] at hr ⊢
    cases hb : env.bcrypt p.downloadPassword with
    | none => rw [hb] at hr; simp at hr
    | some pin =>
      rw [hb] at hr
      cases hc : env.shortlinkCode with
      | none => rw [hc] at hr; simp at hr
      | some code =>
        rw [hc] at hr
        exact ⟨pin, rfl, by simp⟩

theorem eventBefore_mid (pre mid post : List Event) (a b : Event) :
    eventBefore a b (pre ++ a :: (mid ++ b :: post)) := by
  refine ⟨pre.length, pre.length + (mid.length + 1), by omega, ?_, ?_⟩
  · rw [List.get?_append_right (Nat.le_refl _)]
    simp
  · rw [List.get?_append_right (by omega : pre.length ≤ pre.length + (mid.length + 1))]
    have h2 : pre.length + (mid.length + 1) - pre.length = mid.length + 1 := by omega
    rw [h2, List.get?_cons_succ, List.get?_append_right (Nat.le_refl _)]
    simp

theorem notin_evs0 (bundled : String) (r2 : List Event)
    (hr : ∀ e ∈ r2, ∃ q, e = Event.sourceRemoved q) (e : Event)
    (h1 : ∀ q, e ≠ Event.zipCreated q) (h2 : ∀ q, e ≠ Event.sourceRemoved q) :
    e ∉ Event.zipCreated bundled :: r2 := by
  intro hm
  rcases List.mem_cons.mp hm with h | h
  · exact h1 bundled h
  · rcases hr e h with ⟨q, hq⟩
    exact h2 q hq

theorem resolve_owner_mem (db : DB) (userIds : List String) (uid : String) (k : UserKey)
    (hk : k ∈ db.userKeys) (hku : k.userId = uid) (hne : userIds ≠ []) :
    k.public ∈ resolveUserPubKeys db userIds uid := by
  have hlen : 0 < userIds.length := List.length_pos.mpr hne
  unfold resolveUserPubKeys resolveUserKeys
  rw [if_pos hlen]
  have hmemf : k ∈ db.userKeys.filter (fun x => (userIds ++ [uid]).contains x.userId) := by
    rw [List.mem_filter]
    refine ⟨hk, ?_⟩
    simp [hku]
  have hpos : 0 < (db.userKeys.filter
      (fun x => (userIds ++ [uid]).contains x.userId)).length :=
    List.length_pos.mpr (List.ne_nil_of_mem hmemf)
  rw [if_pos hpos]
  exact List.mem_map_of_mem _ hmemf

theorem minted_notin_zipevs (bfp : String) (r2 : List Event)
    (hr : ∀ e ∈ r2, ∃ q, e = Event.sourceRemoved q) :
    ∀ gid pin, Event.minted gid pin ∉ Event.zipCreated bfp :: r2 := by
  intro gid pin
  exact notin_evs0 bfp r2 hr _ (fun q h => Event.noConfusion h)
    (fun q h => Event.noConfusion h)

theorem minted_notin_wrapevs (bfp dst : String) (ks0 : List String) (r2 : List Event)
    (hr : ∀ e ∈ r2, ∃ q, e = Event.sourceRemoved q) :
    ∀ gid pin, Event.minted gid pin ∉
      (Event.zipCreated bfp :: r2) ++
        [Event.wrapped bfp dst ks0, Event.prewrapRemoved bfp] := by
  intro gid pin hm
  rcases List.mem_append.mp hm with hm | hm
  · exact minted_notin_zipevs bfp r2 hr gid pin hm
  · rcases List.mem_cons.mp hm with hm | hm
    · exact Event.noConfusion hm
    · rcases List.mem_cons.mp hm with hm | hm
      · exact Event.noConfusion hm
      · exact List.not_mem_nil _ hm

theorem wrapped_notin_zipevs (bfp : String) (r2 : List Event)
    (hr : ∀ e ∈ r2, ∃ q, e = Event.sourceRemoved q) :
    ∀ s d ks, Event.wrapped s d ks ∉ Event.zipCreated bfp :: r2 := by
  intro s d ks
  exact notin_evs0 bfp r2 hr _ (fun q h => Event.noConfusion h)
    (fun q h => Event.noConfusion h)

theorem persisted_notin_zipevs (bfp : String) (r2 : List Event)
    (hr : ∀ e ∈ r2, ∃ q, e = Event.sourceRemoved q) :
    ∀ g, Event.persisted g ∉ Event.zipCreated bfp :: r2 := by
  intro g
  exact notin_evs0 bfp r2 hr _ (fun q h => Event.noConfusion h)
    (fun q h => Event.noConfusion h)

theorem prewrap_notin_zipevs (bfp : String) (r2 : List Event)
    (hr : ∀ e ∈ r2, ∃ q, e = Event.sourceRemoved q) :
    ∀ q, Event.prewrapRemoved q ∉ Event.zipCreated bfp :: r2 := by
  intro q
  exact notin_evs0 bfp r2 hr _ (fun q2 h => Event.noConfusion h)
    (fun q2 h => Event.noConfusion h)

theorem persisted_notin_wrapevs (bfp dst : String) (ks0 : List String) (r2 : List Event)
    (hr : ∀ e ∈ r2, ∃ q, e = Event.sourceRemoved q) :
    ∀ g, Event.persisted g ∉
      (Event.zipCreated bfp :: r2) ++
        [Event.wrapped bfp dst ks0, Event.prewrapRemoved bfp] := by
  intro g hm
  rcases List.mem_append.mp hm with hm | hm
  · exact persisted_notin_zipevs bfp r2 hr g hm
  · rcases List.mem_cons.mp hm with hm | hm
    · exact Event.noConfusion hm
    · rcases List.mem_cons.mp hm with hm | hm
      · exact Event.noConfusion hm
      · exact List.not_mem_nil _ hm

theorem wrapped_mem_cases (bfp dst : String) (ks0 : List String) (r2 : List Event)
    (hr : ∀ e ∈ r2, ∃ q, e = Event.sourceRemoved q) (s d : String) (ks : List String)
    (hm : Event.wrapped s d ks ∈
      (Event.zipCreated bfp :: r2) ++
        [Event.wrapped bfp dst ks0, Event.prewrapRemoved bfp]) :
    s = bfp ∧ d = dst ∧ ks = ks0 := by
  rcases List.mem_append.mp hm with hm | hm
  · exact absurd hm (wrapped_notin_zipevs bfp r2 hr s d ks)
  · rcases List.mem_cons.mp hm with hm | hm
    · exact (Event.wrapped.injEq _ _ _ _ _ _).mp hm
    · rcases List.mem_cons.mp hm with hm | hm
      · exact Event.noConfusion hm
      · exact absurd hm (List.not_mem_nil _)

theorem prewrap_mem_cases (bfp dst : String) (ks0 : List String) (r2 : List Event)
    (hr : ∀ e ∈ r2, ∃ q, e = Event.sourceRemoved q) (q : String)
    (hm : Event.prewrapRemoved q ∈
      (Event.zipCreated bfp :: r2) ++
        [Event.wrapped bfp dst ks0, Event.prewrapRemoved bfp]) :
    q = bfp := by
  rcases List.mem_append.mp hm with hm | hm
  · exact absurd hm (prewrap_notin_zipevs bfp r2 hr q)
  · rcases List.mem_cons.mp hm with hm | hm
    · exact Event.noConfusion hm
    · rcases List.mem_cons.mp hm with hm | hm
      · exact (Event.prewrapRemoved.injEq _ _).mp hm
      · exact absurd hm (List.not_mem_nil _)

theorem afterWrap_wrapped_mem (env : Env) (p : BundleFileGroupParam) (ph : String)
    (fg : FileGroup) (fs : FS) (evs : List Event) (s d : String) (ks : List String)
    (hm : Event.wrapped s d ks ∈ (afterWrap env p ph fg fs evs).events) :
    Event.wrapped s d ks ∈ evs := by
  obtain ⟨tail, htl, _, hwr, _, _⟩ := afterWrap_events_tail env p ph fg fs evs
  rw [htl] at hm
  rcases List.mem_append.mp hm with hm | hm
  · exact hm
  · exact absurd hm (hwr s d ks)

theorem afterWrap_prewrap_mem (env : Env) (p : BundleFileGroupParam) (ph : String)
    (fg : FileGroup) (fs : FS) (evs : List Event) (q : String)
    (hm : Event.prewrapRemoved q ∈ (afterWrap env p ph fg fs evs).events) :
    Event.prewrapRemoved q ∈ evs := by
  obtain ⟨tail, htl, hpr, _, _, _⟩ := afterWrap_events_tail env p ph fg fs evs
  rw [htl] at hm
  rcases List.mem_append.mp hm with hm | hm
  · exact hm
  · exact absurd hm (hpr q)

theorem afterWrap_persisted_mem (env : Env) (p : BundleFileGroupParam) (ph : String)
    (fg : FileGroup) (fs : FS) (evs : List Event) (g : FileGroup)
    (hm : Event.persisted g ∈ (afterWrap env p ph fg fs evs).events) :
    Event.persisted g ∈ evs ∨ g = savedGroup env p ph fg := by
  obtain ⟨tail, htl, _, _, hper, _⟩ := afterWrap_events_tail env p ph fg fs evs
  rw [htl] at hm
  rcases List.mem_append.mp hm with hm | hm
  · exact Or.inl hm
  · exact Or.inr (hper g hm)

/-! ## Claim theorems -/

/-- Claim C1: falsified by the code.  The eligibility check (lines 66-78)
is an atomic conditional fetch, but the final persistence (line 181) is
GORM `db.Save` — an UPDATE keyed by the primary key alone, with no
condition on `bundledAt`.  In the interleaving where both concurrent
callers run their conditional fetch before either saves, both saves report
an affected row and BOTH callers observe success, contradicting the claim
that exactly one succeeds and every other caller observes InvalidGroup;
that outcome is only reached under strictly serialized schedules (second
half). -/
theorem claim_C1_both_succeed :
    ((runSched 1 [false, true, false, true]
        (Option.some (CGroup.mk "owner" Option.none))
        (CProc.mk "owner" 0 CRes.pending, CProc.mk "owner" 0 CRes.pending)).2.1.res
        = CRes.success
      ∧ (runSched 1 [false, true, false, true]
        (Option.some (CGroup.mk "owner" Option.none))
        (CProc.mk "owner" 0 CRes.pending, CProc.mk "owner" 0 CRes.pending)).2.2.res
        = CRes.success)
    ∧ ((runSched 1 [false, false, true, true]
        (Option.some (CGroup.mk "owner" Option.none))
        (CProc.mk "owner" 0 CRes.pending, CProc.mk "owner" 0 CRes.pending)).2.1.res
        = CRes.success
      ∧ (runSched 1 [false, false, true, true]
        (Option.some (CGroup.mk "owner" Option.none))
        (CProc.mk "owner" 0 CRes.pending, CProc.mk "owner" 0 CRes.pending)).2.2.res
        = CRes.invalidGroup) := by
  decide

/-- Claim C3 as stated is false at this input: the second member's
`io.Copy` fails after one byte, yet its entry remains in the archive as a
truncated placeholder (name "B.txt", data [4]) instead of being absent
from the archive. -/
theorem claim_C3_counterexample :
    (processItems "secret1" (fun _ => true) (fun q => q == "up/a") (fun _ => 1) "up"
        [FileItem.mk "g1" "a" "A.txt", FileItem.mk "g1" "b" "B.txt"]
        [("up/a", FsObj.plain [1, 2, 3]), ("up/b", FsObj.plain [4, 5, 6])]).1 ≠
      specArchiveC3 "secret1" (fun _ => true) (fun q => q == "up/a") "up"
        [FileItem.mk "g1" "a" "A.txt", FileItem.mk "g1" "b" "B.txt"]
        [("up/a", FsObj.plain [1, 2, 3]), ("up/b", FsObj.plain [4, 5, 6])] := by
  decide

/-- Claim C3, amended: the archive contains exactly the members whose
source opened and whose encrypted entry was prepared, each under its
display name and encrypted under the passcode; a member that failed to
open or whose entry could not be prepared is absent; a member whose byte
copy failed remains as a truncated entry holding only the bytes copied
before the failure. -/
theorem claim_C3_amended (pc : String) (eok cok : String → Bool) (plen : String → Nat)
    (up : String) (items : List FileItem) (fs0 : FS)
    (hnd : (items.map (itemPath up)).Nodup) :
    (processItems pc eok cok plen up items fs0).1 =
      (items.filter (openEncOk eok up fs0)).map (entryOf pc cok plen up fs0) :=
  processItems_entries_agree pc eok cok plen up items fs0 fs0 (fun _ _ => rfl) hnd

/-- Witness for the amended claim C3 at a concrete input: one member fully
read, one member with a failing copy. -/
theorem claim_C3_amended_witness :
    (processItems "secret1" (fun _ => true) (fun q => q == "up/a") (fun _ => 1) "up"
        [FileItem.mk "g1" "a" "A.txt", FileItem.mk "g1" "b" "B.txt"]
        [("up/a", FsObj.plain [1, 2, 3]), ("up/b", FsObj.plain [4, 5, 6])]).1 =
      ([FileItem.mk "g1" "a" "A.txt", FileItem.mk "g1" "b" "B.txt"].filter
          (openEncOk (fun _ => true) "up"
            [("up/a", FsObj.plain [1, 2, 3]), ("up/b", FsObj.plain [4, 5, 6])])).map
        (entryOf "secret1" (fun q => q == "up/a") (fun _ => 1) "up"
          [("up/a", FsObj.plain [1, 2, 3]), ("up/b", FsObj.plain [4, 5, 6])]) :=
  claim_C3_amended "secret1" (fun _ => true) (fun q => q == "up/a") (fun _ => 1) "up"
    [FileItem.mk "g1" "a" "A.txt", FileItem.mk "g1" "b" "B.txt"]
    [("up/a", FsObj.plain [1, 2, 3]), ("up/b", FsObj.plain [4, 5, 6])] (by decide)

/-- Claim C5: a member's local source file is deleted by the loop if and
only if its bytes were fully and successfully written into the archive;
any skipped member (failed open, failed entry preparation, failed copy)
keeps its source untouched, with its original content. -/
theorem claim_C5 (pc : String) (eok cok : String → Bool) (plen : String → Nat)
    (up : String) (items : List FileItem) (fs0 : FS)
    (hnd : (items.map (itemPath up)).Nodup) :
    ∀ it ∈ items,
      lookupFS (processItems pc eok cok plen up items fs0).2.1 (itemPath up it) =
        (if readOk eok cok up fs0 it = true then Option.none
         else lookupFS fs0 (itemPath up it)) :=
  processItems_fs_agree pc eok cok plen up items fs0 fs0 (fun _ _ => rfl) hnd

/-- Witness for claim C5 at a concrete input: the member whose copy failed
is still on disk with its original content, while the fully-read member's
source was removed. -/
theorem claim_C5_witness :
    lookupFS (processItems "secret1" (fun _ => true) (fun q => q == "up/a") (fun _ => 1)
        "up" [FileItem.mk "g1" "a" "A.txt", FileItem.mk "g1" "b" "B.txt"]
        [("up/a", FsObj.plain [1, 2, 3]), ("up/b", FsObj.plain [4, 5, 6])]).2.1
      (itemPath "up" (FileItem.mk "g1" "b" "B.txt")) =
      (if readOk (fun _ => true) (fun q => q == "up/a") "up"
          [("up/a", FsObj.plain [1, 2, 3]), ("up/b", FsObj.plain [4, 5, 6])]
          (FileItem.mk "g1" "b" "B.txt") = true then Option.none
       else lookupFS [("up/a", FsObj.plain [1, 2, 3]), ("up/b", FsObj.plain [4, 5, 6])]
          (itemPath "up" (FileItem.mk "g1" "b" "B.txt"))) :=
  claim_C5 "secret1" (fun _ => true) (fun q => q == "up/a") (fun _ => 1) "up"
    [FileItem.mk "g1" "a" "A.txt", FileItem.mk "g1" "b" "B.txt"]
    [("up/a", FsObj.plain [1, 2, 3]), ("up/b", FsObj.plain [4, 5, 6])] (by decide)
    (FileItem.mk "g1" "b" "B.txt") (by decide)

/-- Claim C8: the migration worker uploads the artifact's bytes under the
path's base name with the group's expiry as the expiration hint; on upload
success it saves the group with the locator replaced by the remote key and
removes the local copy; on upload failure it changes neither the database
nor the filesystem (and its return type carries nothing back to the
caller). -/
theorem claim_C8 (putOk : Bool) (bucket : String) (db : DB) (fs : FS)
    (fileGroup : FileGroup) (filePath : String) (obj : FsObj)
    (hopen : lookupFS fs filePath = Option.some obj) :
    (migrationWorker putOk bucket db fs fileGroup filePath).events =
      [MigEvent.putObject bucket (baseName filePath) obj fileGroup.expiredAt]
    ∧ (putOk = true →
        (migrationWorker putOk bucket db fs fileGroup filePath).db =
          db.saveGroup { fileGroup with fileKey := baseName filePath }
        ∧ lookupFS (migrationWorker putOk bucket db fs fileGroup filePath).fs filePath =
            Option.none)
    ∧ (putOk = false →
        (migrationWorker putOk bucket db fs fileGroup filePath).db = db
        ∧ (migrationWorker putOk bucket db fs fileGroup filePath).fs = fs) := by
  cases putOk <;> simp [migrationWorker, hopen, lookupFS_removeFS_self]

/-- Witness for claim C8: a successful upload of a concrete artifact. -/
theorem claim_C8_witness :
    (migrationWorker true "bkt"
        (DB.mk [FileGroup.mk "g1" "u1" Option.none Option.none "" "b/g1.zip" []] [] [])
        [("b/g1.zip", FsObj.zipArchive [])]
        (FileGroup.mk "g1" "u1" Option.none Option.none "" "b/g1.zip" []) "b/g1.zip").db =
      (DB.mk [FileGroup.mk "g1" "u1" Option.none Option.none "" "b/g1.zip" []] [] []).saveGroup
        { FileGroup.mk "g1" "u1" Option.none Option.none "" "b/g1.zip" [] with
            fileKey := baseName "b/g1.zip" }
    ∧ lookupFS (migrationWorker true "bkt"
        (DB.mk [FileGroup.mk "g1" "u1" Option.none Option.none "" "b/g1.zip" []] [] [])
        [("b/g1.zip", FsObj.zipArchive [])]
        (FileGroup.mk "g1" "u1" Option.none Option.none "" "b/g1.zip" []) "b/g1.zip").fs
        "b/g1.zip" = Option.none :=
  (claim_C8 true "bkt"
    (DB.mk [FileGroup.mk "g1" "u1" Option.none Option.none "" "b/g1.zip" []] [] [])
    [("b/g1.zip", FsObj.zipArchive [])]
    (FileGroup.mk "g1" "u1" Option.none Option.none "" "b/g1.zip" []) "b/g1.zip"
    (FsObj.zipArchive []) (by decide)).2.1 rfl

/-- Claim C9: `LazyScryptIdentity.Unwrap` prompts only on a sole scrypt
stanza; an scrypt stanza accompanied by any other stanza is rejected with
the dedicated must-be-only error without prompting; a list with no scrypt
stanza yields the generic incorrect-identity result without prompting; and
a wrong passphrase (the inner unwrap reporting ErrIncorrectIdentity) is
reported as the dedicated incorrect-passphrase error, distinct from the
generic incorrect-identity result. -/
theorem claim_C9 (o : AgeOracle) (pp : PassResult) (st : List Stanza) :
    ((lazyScryptUnwrap o pp st).1 = true →
      st.length = 1 ∧ (st.headD (Stanza.mk "")).type = "scrypt")
    ∧ ((∃ s ∈ st, s.type = "scrypt") → st.length ≠ 1 →
      (lazyScryptUnwrap o pp st).2 = UnwrapResult.scryptMustBeOnly ∧
        (lazyScryptUnwrap o pp st).1 = false)
    ∧ ((∀ s ∈ st, s.type ≠ "scrypt") →
      (lazyScryptUnwrap o pp st).2 = UnwrapResult.incorrectIdentity ∧
        (lazyScryptUnwrap o pp st).1 = false)
    ∧ (∀ pass, st.length = 1 → (st.headD (Stanza.mk "")).type = "scrypt" →
      pp = PassResult.ok pass →
      o.newScryptErr pass = Option.none →
      o.scryptUnwrap pass st = InnerResult.incorrectIdentity →
      (lazyScryptUnwrap o pp st).2 = UnwrapResult.incorrectPassphrase ∧
        UnwrapResult.incorrectPassphrase ≠ UnwrapResult.incorrectIdentity) := by
  by_cases h1 : st.any (fun s => s.type == "scrypt" && st.length != 1) = true
  · have hres : lazyScryptUnwrap o pp st = (false, UnwrapResult.scryptMustBeOnly) := by
      unfold lazyScryptUnwrap
      rw [if_pos h1]
    have hx : ∃ s ∈ st, s.type = "scrypt" ∧ st.length ≠ 1 := by
      rcases List.any_eq_true.mp h1 with ⟨s, hs, hcond⟩
      have hcond' : s.type = "scrypt" ∧ st.length ≠ 1 := by simpa using hcond
      exact ⟨s, hs, hcond'⟩
    rcases hx with ⟨s0, hs0, ht0, hlen0⟩
    refine ⟨?_, ?_, ?_, ?_⟩
    · intro hprom; rw [hres] at hprom; exact absurd hprom (by decide)
    · intro _ _; rw [hres]; exact ⟨rfl, rfl⟩
    · intro hall; exact absurd ht0 (hall s0 hs0)
    · intro pass hlen _ _ _ _; exact absurd hlen hlen0
  · by_cases h2 : (st.length != 1 || (st.headD (Stanza.mk "")).type != "scrypt") = true
    · have hres : lazyScryptUnwrap o pp st = (false, UnwrapResult.incorrectIdentity) := by
        unfold lazyScryptUnwrap
        rw [if_neg h1, if_pos h2]
      have h2' : st.length ≠ 1 ∨ (st.headD (Stanza.mk "")).type ≠ "scrypt" := by
        simpa using h2
      refine ⟨?_, ?_, ?_, ?_⟩
      · intro hprom; rw [hres] at hprom; exact absurd hprom (by decide)
      · intro hex hlen
        rcases hex with ⟨s, hs, ht⟩
        exact absurd (List.any_eq_true.mpr ⟨s, hs, by simp [ht, hlen]⟩) h1
      · intro _; rw [hres]; exact ⟨rfl, rfl⟩
      · intro pass hlen hhd _ _ _
        rcases h2' with hb | hb
        · exact absurd hlen hb
        · exact absurd hhd hb
    · have h2' : st.length = 1 ∧ (st.headD (Stanza.mk "")).type = "scrypt" := by
        simpa using h2
      have hlen := h2'.1
      have hhd := h2'.2
      refine ⟨fun _ => ⟨hlen, hhd⟩, ?_, ?_, ?_⟩
      · intro _ hne; exact absurd hlen hne
      · intro hall
        have hmem : st.headD (Stanza.mk "") ∈ st := by
          cases st with
          | nil => simp at hlen
          | cons a t => simp [List.headD]
        exact absurd hhd (hall _ hmem)
      · intro pass _ _ hpp hnew hinner
        subst hpp
        refine ⟨?_, by decide⟩
        unfold lazyScryptUnwrap
        rw [if_neg h1, if_neg h2]
        simp [hnew, hinner]

/-- Witness for claim C9: a mixed scrypt plus X25519 stanza list is
rejected with the dedicated error without prompting. -/
theorem claim_C9_witness :
    (lazyScryptUnwrap (AgeOracle.mk (fun _ => Option.none)
        (fun _ _ => InnerResult.incorrectIdentity)) (PassResult.ok "pw")
        [Stanza.mk "scrypt", Stanza.mk "X25519"]).2 = UnwrapResult.scryptMustBeOnly ∧
    (lazyScryptUnwrap (AgeOracle.mk (fun _ => Option.none)
        (fun _ _ => InnerResult.incorrectIdentity)) (PassResult.ok "pw")
        [Stanza.mk "scrypt", Stanza.mk "X25519"]).1 = false :=
  (claim_C9 (AgeOracle.mk (fun _ => Option.none)
      (fun _ _ => InnerResult.incorrectIdentity)) (PassResult.ok "pw")
      [Stanza.mk "scrypt", Stanza.mk "X25519"]).2.1
    ⟨Stanza.mk "scrypt", by decide, by decide⟩ (by decide)


/-- Claim C2, amended: every request that fails before the atomic
persistence step (unauthorized, invalid body, passcode-hash failure,
invalid group, empty group, archive-creation failure, or the recipient-wrap
EncryptionError) leaves the database exactly as it was.  (The original
claim's "no stored state differs" part is refuted by
`claim_C2_counterexample`: local filesystem state does change.) -/
theorem claim_C2_amended (env : Env) (p : BundleFileGroupParam) (k : ErrKind)
    (hk : prePersistenceKind k = true)
    (hr : (bundleFileGroup env p).response = Resp.err k) :
    (bundleFileGroup env p).db = env.db := by
  rcases bundleFileGroup_cases env p with ⟨_, he⟩ | ⟨_, he⟩ | ⟨_, he⟩ |
    ⟨u, _, _, he⟩ | ⟨u, g, _, _, _, he⟩ | ⟨_, he⟩ |
    ⟨u, ph, g, _, _, _, _, _, hmain⟩
  · rw [he]
  · rw [he]
  · rw [he]
  · rw [he]
  · rw [he]
  · rw [he]
  · rcases hmain with ⟨_, _, he⟩ | ⟨_, _, he⟩ | ⟨_, he⟩
    · rw [he]
    · rw [he] at hr
      have hfalse := afterWrap_err_kind _ _ _ _ _ _ _ hr
      rw [hfalse] at hk
      exact Bool.noConfusion hk
    · rw [he] at hr
      have hfalse := afterWrap_err_kind _ _ _ _ _ _ _ hr
      rw [hfalse] at hk
      exact Bool.noConfusion hk

/-- Witness for the amended claim C2: a concrete run aborting with the
recipient-wrap EncryptionError leaves the database unchanged. -/
theorem claim_C2_amended_witness :
    (bundleFileGroup envWrapFail reqShare).db = envWrapFail.db :=
  claim_C2_amended envWrapFail reqShare ErrKind.encryptFile (by decide) (by decide)

/-- Claim C2 as stated is false: this request fails before persistence
(recipient-wrap EncryptionError) and indeed no database row changed, yet
the stored local state differs from its pre-call state — the member file
was already deleted and the archive file exists. -/
theorem claim_C2_counterexample :
    (bundleFileGroup envWrapFail reqShare).response = Resp.err ErrKind.encryptFile ∧
    (bundleFileGroup envWrapFail reqShare).db = envWrapFail.db ∧
    (bundleFileGroup envWrapFail reqShare).fs ≠ envWrapFail.fs := by
  refine ⟨by decide, by decide, by decide⟩

/-- Claim C4: an access credential is minted only after the persistence
update succeeded — every minted event in a trace is preceded by a persisted
event for the same group — and whenever the request succeeds with a
download password supplied, the credential is minted with that password
hashed by the same function as the passcode, bound as its pin. -/
theorem claim_C4 (env : Env) (p : BundleFileGroupParam) :
    (∀ gid pin, Event.minted gid pin ∈ (bundleFileGroup env p).events →
      ∃ g, g.id = gid ∧ eventBefore (Event.persisted g) (Event.minted gid pin)
        (bundleFileGroup env p).events)
    ∧ (∀ ex url, (bundleFileGroup env p).response = Resp.created ex url →
        0 < p.downloadPassword.length →
        ∃ gid h, env.bcrypt p.downloadPassword = Option.some h ∧
          Event.minted gid h ∈ (bundleFileGroup env p).events) := by
  rcases bundleFileGroup_cases env p with ⟨_, he⟩ | ⟨_, he⟩ | ⟨_, he⟩ |
    ⟨u, _, _, he⟩ | ⟨u, g, _, _, _, he⟩ | ⟨_, he⟩ |
    ⟨u, ph, g, _, _, _, _, _, hmain⟩
  case _ | _ | _ | _ | _ | _ =>
    refine ⟨?_, ?_⟩
    · intro gid pin hm
      rw [he] at hm
      exact absurd hm (List.not_mem_nil _)
    · intro ex url hr
      rw [he] at hr
      simp at hr
  case _ =>
    rcases hmain with ⟨_, _, he⟩ | ⟨_, _, he⟩ | ⟨_, he⟩
    · refine ⟨?_, ?_⟩
      · intro gid pin hm
        rw [he] at hm
        exact absurd hm (minted_notin_zipevs _ _
          (processItems_events_sourceRemoved _ _ _ _ _ _ _) gid pin)
      · intro ex url hr
        rw [he] at hr
        simp at hr
    · refine ⟨?_, ?_⟩
      · intro gid pin hm
        rw [he] at hm ⊢
        obtain ⟨hgid, heq⟩ := afterWrap_minted _ _ _ _ _ _
          (minted_notin_wrapevs _ _ _ _
            (processItems_events_sourceRemoved _ _ _ _ _ _ _)) gid pin hm
        refine ⟨_, hgid.symm, ?_⟩
        rw [heq]
        exact eventBefore_mid _ [Event.migrationLaunched _] [] _ _
      · intro ex url hr hdp
        rw [he] at hr ⊢
        obtain ⟨h, hb, hmem⟩ := afterWrap_created_mints _ _ _ _ _ _ _ _ hr hdp
        exact ⟨_, h, hb, hmem⟩
    · refine ⟨?_, ?_⟩
      · intro gid pin hm
        rw [he] at hm ⊢
        obtain ⟨hgid, heq⟩ := afterWrap_minted _ _ _ _ _ _
          (minted_notin_zipevs _ _
            (processItems_events_sourceRemoved _ _ _ _ _ _ _)) gid pin hm
        refine ⟨_, hgid.symm, ?_⟩
        rw [heq]
        exact eventBefore_mid _ [Event.migrationLaunched _] [] _ _
      · intro ex url hr hdp
        rw [he] at hr ⊢
        obtain ⟨h, hb, hmem⟩ := afterWrap_created_mints _ _ _ _ _ _ _ _ hr hdp
        exact ⟨_, h, hb, hmem⟩

/-- Witness for claim C4: in a concrete successful run with a download
password, the credential for group "g1" carries the bcrypt-hashed download
password and a persisted event precedes the minted event. -/
theorem claim_C4_witness :
    ∃ g, g.id = "g1" ∧ eventBefore (Event.persisted g)
      (Event.minted "g1" "Hdlpass1") (bundleFileGroup envOk reqShare).events :=
  (claim_C4 envOk reqShare).1 "g1" "Hdlpass1" (by decide)

/-- Claim C6: whenever recipient ids are supplied and the requester has a
registered public key, that key is among the wrapping keys handed to the
multi-recipient encryptor, even if the requester is absent from the
supplied list. -/
theorem claim_C6 (env : Env) (p : BundleFileGroupParam) (uid : String) (k : UserKey)
    (ha : env.authUserId = Option.some uid) (hk : k ∈ env.db.userKeys)
    (hku : k.userId = uid) (hne : p.userIds ≠ []) :
    ∀ s d ks, Event.wrapped s d ks ∈ (bundleFileGroup env p).events →
      k.public ∈ ks := by
  intro s d ks hm
  rcases bundleFileGroup_cases env p with ⟨_, he⟩ | ⟨_, he⟩ | ⟨_, he⟩ |
    ⟨u, _, _, he⟩ | ⟨u, g, _, _, _, he⟩ | ⟨_, he⟩ |
    ⟨u, ph, g, hA, _, _, _, _, hmain⟩
  case _ | _ | _ | _ | _ | _ =>
    rw [he] at hm
    exact absurd hm (List.not_mem_nil _)
  case _ =>
    have huid : u = uid := by
      have := hA.symm.trans ha
      exact (Option.some.injEq _ _).mp this
    rcases hmain with ⟨_, _, he⟩ | ⟨_, _, he⟩ | ⟨_, he⟩
    · rw [he] at hm
      exact absurd hm (wrapped_notin_zipevs _ _
        (processItems_events_sourceRemoved _ _ _ _ _ _ _) s d ks)
    · rw [he] at hm
      have hm2 := afterWrap_wrapped_mem _ _ _ _ _ _ _ _ _ hm
      obtain ⟨hs, hd, hks⟩ := wrapped_mem_cases _ _ _ _
        (processItems_events_sourceRemoved _ _ _ _ _ _ _) s d ks hm2
      subst hks
      subst huid
      exact resolve_owner_mem env.db p.userIds u k hk hku hne
    · rw [he] at hm
      have hm2 := afterWrap_wrapped_mem _ _ _ _ _ _ _ _ _ hm
      exact absurd hm2 (wrapped_notin_zipevs _ _
        (processItems_events_sourceRemoved _ _ _ _ _ _ _) s d ks)

/-- Witness for claim C6: in a concrete run sharing with "u2" only, the
owner "u1" has key "PK1", the wrap event happens, and "PK1" is among its
keys. -/
theorem claim_C6_witness :
    "PK1" ∈ (["PK1"] : List String) ∧
    Event.wrapped "b/g1.zip" "b/g1.zip.age" ["PK1"] ∈
      (bundleFileGroup envOk reqShare).events :=
  ⟨claim_C6 envOk reqShare "u1" (UserKey.mk "u1" "PK1") (by decide) (by decide)
      (by decide) (by decide) "b/g1.zip" "b/g1.zip.age" ["PK1"] (by decide),
   by decide⟩

/-- Claim C7: with no recipient ids the pre-wrap (passcode-only) archive is
never deleted and the persisted locator is the archive's own path; any
deletion of the pre-wrap artifact is preceded by the wrapped form coming
into existence; and whenever the wrap happened, the persisted locator is
the wrapped artifact's path. -/
theorem claim_C7 (env : Env) (p : BundleFileGroupParam) :
    (p.userIds = [] →
      (∀ q, Event.prewrapRemoved q ∉ (bundleFileGroup env p).events) ∧
      (∀ g, Event.persisted g ∈ (bundleFileGroup env p).events →
        g.fileKey = env.bundlePath ++ "/" ++ (g.id ++ ".zip")))
    ∧ (∀ q, Event.prewrapRemoved q ∈ (bundleFileGroup env p).events →
        ∃ d ks, eventBefore (Event.wrapped q d ks) (Event.prewrapRemoved q)
          (bundleFileGroup env p).events)
    ∧ (∀ s d ks, Event.wrapped s d ks ∈ (bundleFileGroup env p).events →
        ∀ g, Event.persisted g ∈ (bundleFileGroup env p).events →
          g.fileKey = d) := by
  rcases bundleFileGroup_cases env p with ⟨_, he⟩ | ⟨_, he⟩ | ⟨_, he⟩ |
    ⟨u, _, _, he⟩ | ⟨u, g, _, _, _, he⟩ | ⟨_, he⟩ |
    ⟨u, ph, g, _, _, _, _, _, hmain⟩
  case _ | _ | _ | _ | _ | _ =>
    refine ⟨fun _ => ⟨?_, ?_⟩, ?_, ?_⟩
    · intro q hm
      rw [he] at hm
      exact absurd hm (List.not_mem_nil _)
    · intro g2 hm
      rw [he] at hm
      exact absurd hm (List.not_mem_nil _)
    · intro q hm
      rw [he] at hm
      exact absurd hm (List.not_mem_nil _)
    · intro s d ks hm
      rw [he] at hm
      exact absurd hm (List.not_mem_nil _)
  case _ =>
    rcases hmain with ⟨hkeys, _, he⟩ | ⟨hkeys, _, he⟩ | ⟨hk0, he⟩
    · refine ⟨fun hu => ⟨?_, ?_⟩, ?_, ?_⟩
      · intro q hm
        rw [he] at hm
        exact absurd hm (prewrap_notin_zipevs _ _
          (processItems_events_sourceRemoved _ _ _ _ _ _ _) q)
      · intro g2 hm
        rw [he] at hm
        exact absurd hm (persisted_notin_zipevs _ _
          (processItems_events_sourceRemoved _ _ _ _ _ _ _) g2)
      · intro q hm
        rw [he] at hm
        exact absurd hm (prewrap_notin_zipevs _ _
          (processItems_events_sourceRemoved _ _ _ _ _ _ _) q)
      · intro s d ks hm
        rw [he] at hm
        exact absurd hm (wrapped_notin_zipevs _ _
          (processItems_events_sourceRemoved _ _ _ _ _ _ _) s d ks)
    · refine ⟨fun hu => ?_, ?_, ?_⟩
      · exfalso
        rw [hu] at hkeys
        simp [resolveUserPubKeys, resolveUserKeys] at hkeys
      · intro q hm
        rw [he] at hm ⊢
        have hm2 := afterWrap_prewrap_mem _ _ _ _ _ _ _ hm
        have hq := prewrap_mem_cases _ _ _ _
          (processItems_events_sourceRemoved _ _ _ _ _ _ _) q hm2
        subst hq
        obtain ⟨tail, htl, _, _, _, _⟩ := afterWrap_events_tail env p ph _ _ _
        refine ⟨env.wrapDest, resolveUserPubKeys env.db p.userIds u, ?_⟩
        rw [htl, List.append_assoc]
        exact eventBefore_mid _ [] _ _ _
      · intro s d ks hm g2 hp
        rw [he] at hm hp
        have hm2 := afterWrap_wrapped_mem _ _ _ _ _ _ _ _ _ hm
        obtain ⟨hs, hd, hks⟩ := wrapped_mem_cases _ _ _ _
          (processItems_events_sourceRemoved _ _ _ _ _ _ _) s d ks hm2
        rcases afterWrap_persisted_mem _ _ _ _ _ _ _ hp with hp2 | hp2
        · exact absurd hp2 (persisted_notin_wrapevs _ _ _ _
            (processItems_events_sourceRemoved _ _ _ _ _ _ _) g2)
        · rw [hp2, ← hd]
          rfl
    · refine ⟨fun hu => ⟨?_, ?_⟩, ?_, ?_⟩
      · intro q hm
        rw [he] at hm
        have hm2 := afterWrap_prewrap_mem _ _ _ _ _ _ _ hm
        exact absurd hm2 (prewrap_notin_zipevs _ _
          (processItems_events_sourceRemoved _ _ _ _ _ _ _) q)
      · intro g2 hm
        rw [he] at hm
        rcases afterWrap_persisted_mem _ _ _ _ _ _ _ hm with hp2 | hp2
        · exact absurd hp2 (persisted_notin_zipevs _ _
            (processItems_events_sourceRemoved _ _ _ _ _ _ _) g2)
        · rw [hp2]
          rfl
      · intro q hm
        rw [he] at hm
        have hm2 := afterWrap_prewrap_mem _ _ _ _ _ _ _ hm
        exact absurd hm2 (prewrap_notin_zipevs _ _
          (processItems_events_sourceRemoved _ _ _ _ _ _ _) q)
      · intro s d ks hm
        rw [he] at hm
        have hm2 := afterWrap_wrapped_mem _ _ _ _ _ _ _ _ _ hm
        exact absurd hm2 (wrapped_notin_zipevs _ _
          (processItems_events_sourceRemoved _ _ _ _ _ _ _) s d ks)

/-- Witness for claim C7: in a concrete run with recipients, the pre-wrap
archive removal is preceded by the wrapped artifact's creation. -/
theorem claim_C7_witness :
    ∃ d ks, eventBefore (Event.wrapped "b/g1.zip" d ks)
      (Event.prewrapRemoved "b/g1.zip") (bundleFileGroup envOk reqShare).events :=
  (claim_C7 envOk reqShare).2.1 "b/g1.zip" (by decide)

/-- Claim C10: when the expiry string parses successfully and the final
`db.Save` fails, the error branch at lines 183-187 interpolates
`err.Error()` on the stale, nil error left by `time.Parse` — a nil pointer
dereference instead of a report of the database failure. -/
theorem claim_C10 (env : Env) (p : BundleFileGroupParam) (uid : String)
    (fileGroup : FileGroup)
    (ha : env.authUserId = Option.some uid)
    (hbind : env.bindOk = true)
    (hbcs : (env.bcrypt p.passcode).isSome = true)
    (hf : env.db.fetchOwnedUnbundled p.fileGroupId uid = Option.some fileGroup)
    (hitems : (env.db.findItems fileGroup.id).isEmpty = false)
    (hzip : env.createZipOk = true)
    (hwrap : resolveUserPubKeys env.db p.userIds uid = [] ∨ env.wrapOk = true)
    (hparse : (env.parseTime p.expiredAt).isSome = true)
    (hsave : env.saveOk = false) :
    (bundleFileGroup env p).response = Resp.nilDeref := by
  rcases bundleFileGroup_cases env p with ⟨hA, _⟩ | ⟨hB, _⟩ | ⟨hBC, _⟩ |
    ⟨u, hA, hF, _⟩ | ⟨u, g, hA, hF, hE, _⟩ | ⟨hZ, _⟩ |
    ⟨u, ph, g, hA, hBC, hF, hE, hZ, hmain⟩
  · rw [ha] at hA
    exact Option.noConfusion hA
  · rw [hbind] at hB
    exact Bool.noConfusion hB
  · rw [hBC] at hbcs
    exact Bool.noConfusion hbcs
  · have huid : u = uid := (Option.some.injEq _ _).mp (hA.symm.trans ha)
    rw [huid, hf] at hF
    exact Option.noConfusion hF
  · have huid : u = uid := (Option.some.injEq _ _).mp (hA.symm.trans ha)
    rw [huid, hf] at hF
    have hg : g = fileGroup := ((Option.some.injEq _ _).mp hF).symm
    rw [hg, hitems] at hE
    exact Bool.noConfusion hE
  · rw [hzip] at hZ
    exact Bool.noConfusion hZ
  · have huid : u = uid := (Option.some.injEq _ _).mp (hA.symm.trans ha)
    rcases hmain with ⟨hkeys, hw, he⟩ | ⟨_, _, he⟩ | ⟨_, he⟩
    · exfalso
      rcases hwrap with hw2 | hw2
      · rw [huid, hw2] at hkeys
        simp at hkeys
      · rw [hw2] at hw
        exact Bool.noConfusion hw
    · rw [he]
      exact afterWrap_saveFail_nilDeref _ _ _ _ _ _ hparse hsave
    · rw [he]
      exact afterWrap_saveFail_nilDeref _ _ _ _ _ _ hparse hsave

/-- Witness for claim C10: a concrete run whose expiry parses and whose
save fails crashes with the nil dereference. -/
theorem claim_C10_witness :
    (bundleFileGroup envSaveFail reqPlain).response = Resp.nilDeref :=
  claim_C10 envSaveFail reqPlain "u1"
    (FileGroup.mk "g1" "u1" Option.none Option.none "" "" [])
    (by decide) (by decide) (by decide) (by decide) (by decide) (by decide)
    (Or.inl (by decide)) (by decide) (by decide)

end Securi
